import Mathlib

/-!
Shallow embedding of the `rust-iptables` crate (`src/lib.rs`): the version
probe `new`, the capability flags `has_check` / `has_wait`, and the
execution coordinator `run` together with the thin operations
(`exists`, `insert`, `append`, `insert_unique`, `append_unique`) that
funnel through it.

Effectful Rust code is modelled by explicit environment passing: a
`RunEnv` provides the outcomes the OS would return (lock-file creation,
successive `flock` results, subprocess launch), and `run` returns both
the Rust function's result and a trace of externally visible events
(lock-file open, lock acquisition, subprocess spawn with its final
argument vector, file drop).  Rust's RAII drop of the lock `File` on
early `return` is modelled by emitting the drop event on those paths.
-/

namespace RustIptables

/-- Embeds the struct `IPTables` of `src/lib.rs` (command name plus the two
capability flags for `-C` and `-w`). -/
structure IPTables where
  cmd : String
  has_check : Bool
  has_wait : Bool
deriving DecidableEq, Repr

/-- Embeds the `has_check` initializer expression in `new`
(`src/lib.rs` line 57): `(v_major > 1) || (v_major == 1 && v_minor > 4) ||
(v_major == 1 && v_minor == 4 && v_patch > 10)`.  The parsed components
are non-negative (the regex captures digit runs), so they are `Nat` here. -/
def hasCheckFlag (v_major v_minor v_patch : Nat) : Bool :=
  (v_major > 1) || (v_major == 1 && v_minor > 4) ||
    (v_major == 1 && v_minor == 4 && v_patch > 10)

/-- Embeds the `has_wait` initializer expression in `new`
(`src/lib.rs` line 58). -/
def hasWaitFlag (v_major v_minor v_patch : Nat) : Bool :=
  (v_major > 1) || (v_major == 1 && v_minor > 4) ||
    (v_major == 1 && v_minor == 4 && v_patch > 19)

/-- Strict lexicographic order on version triples, the order the spec uses
for the capability thresholds ("strictly greater, compared
major,minor,patch lexicographically"). -/
def lexGt (a b c x y z : Nat) : Prop :=
  a > x ∨ (a = x ∧ (b > y ∨ (b = y ∧ c > z)))

/-- Non-strict lexicographic order on version triples. -/
def lexLe (a b c x y z : Nat) : Prop :=
  a < x ∨ (a = x ∧ (b < y ∨ (b = y ∧ c ≤ z)))

/-- ASCII decimal digit test, the character class matched by `\d` in the
version regex `v(\d+)\.(\d+)\.(\d+)`. -/
def isDigitCh (c : Char) : Bool :=
  '0' ≤ c && c ≤ '9'

/-- Matches the version regex `v(\d+)\.(\d+)\.(\d+)` anchored at the head of
the character list, returning the three captured digit runs.  Since `\d+`
is a maximal digit run followed by a non-digit (`.` or end of pattern),
greedy matching with no backtracking is exact here. -/
def matchVersionAt (l : List Char) : Option (List Char × List Char × List Char) :=
  match l with
  | 'v' :: r0 =>
    let d1 := r0.takeWhile isDigitCh
    let r1 := r0.dropWhile isDigitCh
    if d1.isEmpty then none else
      match r1 with
      | '.' :: r2 =>
        let d2 := r2.takeWhile isDigitCh
        let r3 := r2.dropWhile isDigitCh
        if d2.isEmpty then none else
          match r3 with
          | '.' :: r4 =>
            let d3 := r4.takeWhile isDigitCh
            if d3.isEmpty then none else some (d1, d2, d3)
          | _ => none
      | _ => none
  | _ => none

/-- Embeds `re.captures(&version_string)` for the version regex: the
leftmost match of `v(\d+)\.(\d+)\.(\d+)` in the string, if any
(`src/lib.rs` line 50). -/
def scanVersion : List Char → Option (List Char × List Char × List Char)
  | [] => none
  | c :: rest =>
    match matchVersionAt (c :: rest) with
    | some r => some r
    | none => scanVersion rest

/-- Numeric value of a digit run. -/
def digitsToNat (l : List Char) : Nat :=
  l.foldl (fun acc c => acc * 10 + (c.toNat - '0'.toNat)) 0

/-- Embeds `str::parse::<i32>` applied to a captured digit run
(`src/lib.rs` lines 51-53): the run is non-empty and all digits, so the
parse fails exactly when the value overflows `i32::MAX = 2147483647`. -/
def parseI32 (l : List Char) : Except String Nat :=
  let n := digitsToNat l
  if n ≤ 2147483647 then Except.ok n else Except.error "number too large"

/-- Error type of the crate.  Modelled from the spec: the module
`error.rs` (types `IPTError` / `IPTResult`) is not under `src/`, only its
uses in `lib.rs` are.  The spec's taxonomy (§7) distinguishes probe
failures, spawn failures (underlying OS error) and lock failures
(underlying OS error); `lib.rs` additionally constructs
`IPTError::Other(&'static str)` and `IPTError::Nix(e)` directly, and
converts `&'static str`, `io::Error` and parse errors via `?` / `ok_or`. -/
inductive IPTError where
  | Other (msg : String)
  | Nix (errno : Nat)
  | Io (errno : Nat)
  | Parse (msg : String)
deriving DecidableEq, Repr

/-- Embeds `new` for Linux (`src/lib.rs` lines 40-60).  The result of
invoking `<cmd> --version` is supplied by the environment as
`versionCmd`: `Except.error e` models an `io::Error` from
`Command::output` (propagated by `?`), `Except.ok s` models the captured
standard output decoded to a string. -/
def new (is_ipv6 : Bool) (versionCmd : Except Nat String) : Except IPTError IPTables :=
  let cmd := if is_ipv6 then "ip6tables" else "iptables"
  match versionCmd with
  | Except.error e => Except.error (IPTError.Io e)
  | Except.ok version_string =>
    match scanVersion version_string.toList with
    | none => Except.error (IPTError.Other "invalid version number")
    | some (g1, g2, g3) =>
      match parseI32 g1, parseI32 g2, parseI32 g3 with
      | Except.ok v_major, Except.ok v_minor, Except.ok v_patch =>
        Except.ok { cmd := cmd,
                    has_check := hasCheckFlag v_major v_minor v_patch,
                    has_wait := hasWaitFlag v_major v_minor v_patch }
      | Except.error m, _, _ => Except.error (IPTError.Parse m)
      | _, Except.error m, _ => Except.error (IPTError.Parse m)
      | _, _, Except.error m => Except.error (IPTError.Parse m)

/-- Exit status of a terminated subprocess (`status.success()` in Rust). -/
structure ExitStatus where
  success : Bool
deriving DecidableEq, Repr

/-- Embeds `std::process::Output`: exit status plus captured stdout and
stderr (stdout decoded to a string, as `from_utf8_lossy` does). -/
structure Output where
  status : ExitStatus
  stdout : String
  stderr : String
deriving DecidableEq, Repr

/-- Environment for one `run` call: the outcome the OS gives to
`File::create` on the lock file, the successive outcomes of the `flock`
attempts (each loop iteration consumes one), and the outcome of
launching the subprocess.  Errors are carried as numeric `errno`. -/
structure RunEnv where
  createResult : Except Nat Unit
  flockResults : List (Except Nat Unit)
  spawnResult : Except Nat Output

/-- Externally visible events of one `run` call, in order. -/
inductive Event where
  | openLockFile
  | lockAcquired
  | spawn (args : List String)
  | dropLockFile
deriving DecidableEq, Repr

/-- Linux `errno` for the would-block condition checked by the retry loop
(`nix::errno::EAGAIN`). -/
def EAGAIN : Nat := 11

/-- Embeds the `while need_retry` loop of `run` (`src/lib.rs` lines
247-258): consume `flock` outcomes until one is a success (stop, lock
held) or an error other than `EAGAIN` (stop, propagate the error);
`EAGAIN` outcomes are retried.  `none` means the supplied outcomes were
exhausted with the loop still retrying (the potentially infinite loop the
source itself flags). -/
def flockLoop : List (Except Nat Unit) → Option (Except Nat Unit)
  | [] => none
  | Except.ok () :: _ => some (Except.ok ())
  | Except.error e :: rest =>
    if e = EAGAIN then flockLoop rest else some (Except.error e)

/-- Embeds `IPTables::run` (`src/lib.rs` lines 236-270).  Returns the
result together with the event trace; `none` means the call has not yet
returned (still busy-retrying the lock).  With `has_wait`, the wait flag
is appended after the caller's arguments and no lock file is touched.
Without it, the lock file is created (`?` propagates a failure), the
`flock` loop runs, the subprocess is launched without the wait flag, and
the `File` is dropped — explicitly on the normal path, by RAII scope exit
on the early-return paths. -/
def run (ipt : IPTables) (args : List String) (env : RunEnv) :
    Option (Except IPTError Output × List Event) :=
  if ipt.has_wait then
    match env.spawnResult with
    | Except.ok out => some (Except.ok out, [Event.spawn (args ++ ["--wait"])])
    | Except.error e => some (Except.error (IPTError.Io e), [Event.spawn (args ++ ["--wait"])])
  else
    match env.createResult with
    | Except.error e => some (Except.error (IPTError.Io e), [Event.openLockFile])
    | Except.ok () =>
      match flockLoop env.flockResults with
      | none => none
      | some (Except.error e) =>
        some (Except.error (IPTError.Nix e), [Event.openLockFile, Event.dropLockFile])
      | some (Except.ok ()) =>
        match env.spawnResult with
        | Except.ok out =>
          some (Except.ok out,
            [Event.openLockFile, Event.lockAcquired, Event.spawn args, Event.dropLockFile])
        | Except.error e =>
          some (Except.error (IPTError.Io e),
            [Event.openLockFile, Event.lockAcquired, Event.spawn args, Event.dropLockFile])

/-- Embeds Rust `str::split(" ")` on character lists: split at every
single space, keeping empty fragments (so `""` gives `[""]` and
`"a  b"` gives `["a", "", "b"]`, as in Rust). -/
def splitSpace : List Char → List (List Char)
  | [] => [[]]
  | c :: rest =>
    match splitSpace rest with
    | [] => [[]]
    | w :: ws => if c = ' ' then [] :: w :: ws else (c :: w) :: ws

/-- Embeds `rule.split(" ").collect::<Vec<&str>>()`. -/
def splitRule (rule : String) : List String :=
  (splitSpace rule.toList).map (fun w => String.mk w)

/-- Embeds Rust `str::contains` for string patterns: `pat` occurs as a
contiguous substring of `s`. -/
def strContains (s pat : String) : Bool :=
  (List.range (s.toList.length + 1)).any
    (fun i => pat.toList.isPrefixOf (s.toList.drop i))

/-- Embeds `IPTables::exists_old_version` (`src/lib.rs` lines 220-225):
run `-t <table> -S` and look for the literal `-A <chain> <rule>` in the
captured stdout. -/
def exists_old_version (ipt : IPTables) (table chain rule : String) (env : RunEnv) :
    Option (Except IPTError Bool × List Event) :=
  match run ipt ["-t", table, "-S"] env with
  | none => none
  | some (Except.ok output, tr) =>
    some (Except.ok (strContains output.stdout ("-A " ++ chain ++ " " ++ rule)), tr)
  | some (Except.error err, tr) => some (Except.error err, tr)

/-- Embeds `IPTables::exists` (`src/lib.rs` lines 66-75): without
`has_check` fall back to `exists_old_version`, otherwise run
`-t <table> -C <chain> <rule…>` and report the exit status. -/
def «exists» (ipt : IPTables) (table chain rule : String) (env : RunEnv) :
    Option (Except IPTError Bool × List Event) :=
  if !ipt.has_check then
    exists_old_version ipt table chain rule env
  else
    match run ipt (["-t", table, "-C", chain] ++ splitRule rule) env with
    | none => none
    | some (Except.ok output, tr) => some (Except.ok output.status.success, tr)
    | some (Except.error err, tr) => some (Except.error err, tr)

/-- Embeds `IPTables::insert` (`src/lib.rs` lines 79-84): run
`-t <table> -I <chain> <position> <rule…>` and report the exit status. -/
def insert (ipt : IPTables) (table chain rule : String) (position : Int) (env : RunEnv) :
    Option (Except IPTError Bool × List Event) :=
  match run ipt (["-t", table, "-I", chain, toString position] ++ splitRule rule) env with
  | none => none
  | some (Except.ok output, tr) => some (Except.ok output.status.success, tr)
  | some (Except.error err, tr) => some (Except.error err, tr)

/-- Embeds `IPTables::append` (`src/lib.rs` lines 107-112): run
`-t <table> -A <chain> <rule…>` and report the exit status. -/
def append (ipt : IPTables) (table chain rule : String) (env : RunEnv) :
    Option (Except IPTError Bool × List Event) :=
  match run ipt (["-t", table, "-A", chain] ++ splitRule rule) env with
  | none => none
  | some (Except.ok output, tr) => some (Except.ok output.status.success, tr)
  | some (Except.error err, tr) => some (Except.error err, tr)

/-- Embeds `IPTables::insert_unique` (`src/lib.rs` lines 88-94).  Each of
the two potential `run` calls gets its own environment; the traces are
concatenated. -/
def insert_unique (ipt : IPTables) (table chain rule : String) (position : Int)
    (env1 env2 : RunEnv) : Option (Except IPTError Bool × List Event) :=
  match «exists» ipt table chain rule env1 with
  | none => none
  | some (Except.error err, tr) => some (Except.error err, tr)
  | some (Except.ok true, tr) =>
    some (Except.error (IPTError.Other "the rule exists in the table/chain"), tr)
  | some (Except.ok false, tr) =>
    match insert ipt table chain rule position env2 with
    | none => none
    | some (r, tr2) => some (r, tr ++ tr2)

/-- Embeds `IPTables::append_unique` (`src/lib.rs` lines 116-122). -/
def append_unique (ipt : IPTables) (table chain rule : String)
    (env1 env2 : RunEnv) : Option (Except IPTError Bool × List Event) :=
  match «exists» ipt table chain rule env1 with
  | none => none
  | some (Except.error err, tr) => some (Except.error err, tr)
  | some (Except.ok true, tr) =>
    some (Except.error (IPTError.Other "the rule exists in the table/chain"), tr)
  | some (Except.ok false, tr) =>
    match append ipt table chain rule env2 with
    | none => none
    | some (r, tr2) => some (r, tr ++ tr2)

end RustIptables

namespace RustIptables

/-- C1: for every parsed version triple `(major, minor, patch)`, the
capability flags satisfy exactly: `has_check` is true iff the triple is
strictly greater than `(1, 4, 10)` lexicographically, and `has_wait` is
true iff it is strictly greater than `(1, 4, 19)`. -/
theorem capability_flags_iff_lexGt (a b c : Nat) :
    (hasCheckFlag a b c = true ↔ lexGt a b c 1 4 10) ∧
    (hasWaitFlag a b c = true ↔ lexGt a b c 1 4 19) := by
  constructor
  · simp only [hasCheckFlag, lexGt, Bool.or_eq_true, Bool.and_eq_true,
      decide_eq_true_eq, Nat.beq_eq_true_eq]
    omega
  · simp only [hasWaitFlag, lexGt, Bool.or_eq_true, Bool.and_eq_true,
      decide_eq_true_eq, Nat.beq_eq_true_eq]
    omega

/-- C2: the derived flags are monotone non-decreasing in the version
triple under lexicographic order, and the spec's sample points hold:
`1.4.10` gives both flags false, `1.4.11` gives `has_check` true and
`has_wait` false, `1.4.20` gives both true. -/
theorem capability_flags_monotone :
    (∀ a b c x y z : Nat, lexLe a b c x y z →
      (hasCheckFlag a b c = true → hasCheckFlag x y z = true) ∧
      (hasWaitFlag a b c = true → hasWaitFlag x y z = true)) ∧
    hasCheckFlag 1 4 10 = false ∧ hasWaitFlag 1 4 10 = false ∧
    hasCheckFlag 1 4 11 = true ∧ hasWaitFlag 1 4 11 = false ∧
    hasCheckFlag 1 4 20 = true ∧ hasWaitFlag 1 4 20 = true := by
  refine ⟨?_, by decide, by decide, by decide, by decide, by decide, by decide⟩
  intro a b c x y z h
  simp only [hasCheckFlag, hasWaitFlag, lexLe, Bool.or_eq_true, Bool.and_eq_true,
    decide_eq_true_eq, Nat.beq_eq_true_eq] at *
  omega

/-- Witness for C2 at the concrete triples `1.4.11 ≤ 1.4.20`. -/
theorem capability_flags_monotone_witness :
    lexLe 1 4 11 1 4 20 ∧ hasCheckFlag 1 4 20 = true :=
  ⟨by unfold lexLe; omega,
   (capability_flags_monotone.1 1 4 11 1 4 20 (by unfold lexLe; omega)).1 (by decide)⟩

end RustIptables

namespace RustIptables

/-- If no suffix of the input matches the version pattern, the leftmost
scan finds nothing. -/
theorem scanVersion_eq_none_of_all (l : List Char)
    (h : ∀ i, matchVersionAt (l.drop i) = none) : scanVersion l = none := by
  induction l with
  | nil => rfl
  | cons c rest ih =>
    have h0 := h 0
    simp only [List.drop_zero] at h0
    simp only [scanVersion, h0]
    exact ih (fun i => h (i + 1))

/-- Checking the version pattern on every suffix reduces to the finitely
many non-empty suffixes: past the end the suffix is empty and the pattern
cannot match. -/
theorem matchVersionAt_drop_none (l : List Char)
    (h : ∀ i < l.length, matchVersionAt (l.drop i) = none) (i : Nat) :
    matchVersionAt (l.drop i) = none := by
  rcases Nat.lt_or_ge i l.length with hlt | hge
  · exact h i hlt
  · rw [List.drop_eq_nil_of_le hge]
    rfl

/-- C7: if the version-query output contains no `v<major>.<minor>.<patch>`
substring (no suffix matches the version pattern), `new` fails with the
no-version-match error, so no handle — in particular no partial handle
with any capability flag set — is ever produced. -/
theorem new_no_version_match_fails (is_ipv6 : Bool) (s : String)
    (h : ∀ i, matchVersionAt (s.toList.drop i) = none) :
    new is_ipv6 (Except.ok s) = Except.error (IPTError.Other "invalid version number") := by
  have hs := scanVersion_eq_none_of_all s.toList h
  simp only [new, hs]

/-- Witness for C7 on the spec's example output `"no version here"`. -/
theorem new_no_version_match_fails_witness :
    new false (Except.ok "no version here") =
      Except.error (IPTError.Other "invalid version number") :=
  new_no_version_match_fails false "no version here"
    (matchVersionAt_drop_none _ (by decide))

end RustIptables

namespace RustIptables

/-- Case enumeration of a returned `run` call: with `has_wait` the trace
is a single spawn with the wait flag appended; without it the trace is
one of the three advisory-lock shapes (create failed; lock error; lock
acquired then spawn then drop). -/
theorem run_shape (ipt : IPTables) (args : List String) (env : RunEnv)
    (r : Except IPTError Output) (tr : List Event)
    (h : run ipt args env = some (r, tr)) :
    (ipt.has_wait = true ∧ tr = [Event.spawn (args ++ ["--wait"])]) ∨
    (ipt.has_wait = false ∧
      (tr = [Event.openLockFile] ∨
       tr = [Event.openLockFile, Event.dropLockFile] ∨
       tr = [Event.openLockFile, Event.lockAcquired, Event.spawn args,
             Event.dropLockFile])) := by
  obtain ⟨cr, fl, sp⟩ := env
  cases hw : ipt.has_wait
  · right
    refine ⟨rfl, ?_⟩
    cases cr with
    | error e =>
      simp only [run, hw, Bool.false_eq_true, if_false] at h
      simp only [Option.some.injEq, Prod.mk.injEq] at h
      exact Or.inl h.2.symm
    | ok u =>
      cases u
      cases hfl : flockLoop fl with
      | none => simp [run, hw, hfl] at h
      | some res =>
        cases res with
        | error e =>
          simp only [run, hw, Bool.false_eq_true, if_false, hfl,
            Option.some.injEq, Prod.mk.injEq] at h
          exact Or.inr (Or.inl h.2.symm)
        | ok u2 =>
          cases u2
          cases sp with
          | ok out =>
            simp only [run, hw, Bool.false_eq_true, if_false, hfl,
              Option.some.injEq, Prod.mk.injEq] at h
            exact Or.inr (Or.inr h.2.symm)
          | error e =>
            simp only [run, hw, Bool.false_eq_true, if_false, hfl,
              Option.some.injEq, Prod.mk.injEq] at h
            exact Or.inr (Or.inr h.2.symm)
  · left
    refine ⟨rfl, ?_⟩
    cases sp with
    | ok out =>
      simp only [run, hw, if_true, Option.some.injEq, Prod.mk.injEq] at h
      exact h.2.symm
    | error e =>
      simp only [run, hw, if_true, Option.some.injEq, Prod.mk.injEq] at h
      exact h.2.symm

/-- When a returned `run` call actually launched the subprocess (its trace
has a spawn event) and the launch produced output `out`, the call's result
is exactly `Except.ok out`. -/
theorem run_spawn_result (ipt : IPTables) (args : List String) (env : RunEnv)
    (r : Except IPTError Output) (tr : List Event)
    (h : run ipt args env = some (r, tr)) (out : Output)
    (hsp : env.spawnResult = Except.ok out) (hs : ∃ a, Event.spawn a ∈ tr) :
    r = Except.ok out := by
  obtain ⟨cr, fl, sp⟩ := env
  simp only at hsp
  subst hsp
  cases hw : ipt.has_wait
  · cases cr with
    | error e =>
      simp only [run, hw, Bool.false_eq_true, if_false, Option.some.injEq,
        Prod.mk.injEq] at h
      obtain ⟨a, ha⟩ := hs
      rw [← h.2] at ha
      simp at ha
    | ok u =>
      cases u
      cases hfl : flockLoop fl with
      | none => simp [run, hw, hfl] at h
      | some res =>
        cases res with
        | error e =>
          simp only [run, hw, Bool.false_eq_true, if_false, hfl,
            Option.some.injEq, Prod.mk.injEq] at h
          obtain ⟨a, ha⟩ := hs
          rw [← h.2] at ha
          simp at ha
        | ok u2 =>
          cases u2
          simp only [run, hw, Bool.false_eq_true, if_false, hfl,
            Option.some.injEq, Prod.mk.injEq] at h
          exact h.1.symm
  · simp only [run, hw, if_true, Option.some.injEq, Prod.mk.injEq] at h
    exact h.1.symm

end RustIptables

namespace RustIptables

/-- With `has_wait`, `run` reduces to a single launch with the wait flag
appended after the caller's arguments, whatever the launch outcome. -/
theorem run_wait_eq (ipt : IPTables) (args : List String) (env : RunEnv)
    (h : ipt.has_wait = true) :
    run ipt args env =
      some ((match env.spawnResult with
             | Except.ok out => Except.ok out
             | Except.error e => Except.error (IPTError.Io e)),
            [Event.spawn (args ++ ["--wait"])]) := by
  obtain ⟨cr, fl, sp⟩ := env
  cases sp <;> simp [run, h]

/-- C3: for every handle with `has_wait` true and every argument list,
`run` launches the subprocess with the wait flag appended as the last
argument after all caller-supplied arguments, and takes no OS-level file
lock (no lock-file open, no lock acquisition); for `insert` the spawned
vector is global flags, operation flag, operation arguments, then the
wait flag. -/
theorem run_wait_appends_wait_flag (ipt : IPTables) (args : List String)
    (env : RunEnv) (h : ipt.has_wait = true) :
    (∃ r, run ipt args env = some (r, [Event.spawn (args ++ ["--wait"])])) ∧
    (∀ r tr, run ipt args env = some (r, tr) →
      Event.openLockFile ∉ tr ∧ Event.lockAcquired ∉ tr) ∧
    (∀ table chain rule (position : Int) r tr,
      insert ipt table chain rule position env = some (r, tr) →
      tr = [Event.spawn (["-t", table, "-I", chain, toString position]
            ++ splitRule rule ++ ["--wait"])]) := by
  refine ⟨⟨_, run_wait_eq ipt args env h⟩, ?_, ?_⟩
  · intro r tr hrun
    rw [run_wait_eq ipt args env h] at hrun
    simp only [Option.some.injEq, Prod.mk.injEq] at hrun
    rw [← hrun.2]
    simp
  · intro table chain rule position r tr hins
    simp only [insert] at hins
    rw [run_wait_eq ipt _ env h] at hins
    cases hsp : env.spawnResult <;>
      simp only [hsp, Option.some.injEq, Prod.mk.injEq] at hins <;>
      exact hins.2.symm

/-- Witness for C3: a `has_wait` handle spawning `-L` with the wait flag
last. -/
theorem run_wait_appends_wait_flag_witness :
    (⟨"iptables", true, true⟩ : IPTables).has_wait = true ∧
    (∃ r, run ⟨"iptables", true, true⟩ ["-L"]
        ⟨Except.ok (), [], Except.ok ⟨⟨true⟩, "", ""⟩⟩
        = some (r, [Event.spawn ["-L", "--wait"]])) :=
  ⟨rfl, (run_wait_appends_wait_flag ⟨"iptables", true, true⟩ ["-L"]
      ⟨Except.ok (), [], Except.ok ⟨⟨true⟩, "", ""⟩⟩ rfl).1⟩

/-- Leading would-block outcomes are consumed transparently by the retry
loop. -/
theorem flockLoop_replicate_append (n : Nat) (l : List (Except Nat Unit)) :
    flockLoop (List.replicate n (Except.error EAGAIN) ++ l) = flockLoop l := by
  induction n with
  | zero => rfl
  | succ n ih => simp [List.replicate_succ, flockLoop, ih]

/-- A run of would-block outcomes alone never terminates the retry loop. -/
theorem flockLoop_replicate_eagain (n : Nat) :
    flockLoop (List.replicate n (Except.error EAGAIN)) = none := by
  have h := flockLoop_replicate_append n []
  simpa using h

/-- C4: in advisory-lock mode, (i) any finite number of would-block
(`EAGAIN`) failures before a successful acquisition is absorbed — the
call behaves exactly as if the lock had been free at once; (ii) after any
number of would-block failures with no success the call has still not
returned (retry without bound, no backoff modelled); (iii) any other
`flock` error makes `run` return the lock-failure error immediately,
propagating the OS error, with no further acquisition attempt consumed. -/
theorem run_lock_retry_semantics :
    (∀ (ipt : IPTables) (args : List String) (n : Nat)
        (rest : List (Except Nat Unit)) (sp : Except Nat Output),
      ipt.has_wait = false →
      run ipt args ⟨Except.ok (), List.replicate n (Except.error EAGAIN)
          ++ Except.ok () :: rest, sp⟩
        = run ipt args ⟨Except.ok (), [Except.ok ()], sp⟩) ∧
    (∀ (ipt : IPTables) (args : List String) (n : Nat) (sp : Except Nat Output),
      ipt.has_wait = false →
      run ipt args ⟨Except.ok (), List.replicate n (Except.error EAGAIN), sp⟩ = none) ∧
    (∀ (ipt : IPTables) (args : List String) (e : Nat)
        (rest : List (Except Nat Unit)) (sp : Except Nat Output),
      ipt.has_wait = false → e ≠ EAGAIN →
      run ipt args ⟨Except.ok (), Except.error e :: rest, sp⟩
        = some (Except.error (IPTError.Nix e),
                [Event.openLockFile, Event.dropLockFile])) := by
  refine ⟨?_, ?_, ?_⟩
  · intro ipt args n rest sp hw
    simp [run, hw, flockLoop_replicate_append, flockLoop]
  · intro ipt args n sp hw
    simp [run, hw, flockLoop_replicate_eagain]
  · intro ipt args e rest sp hw he
    simp [run, hw, flockLoop, he]

/-- Witness for C4: seven would-block failures then success behave as
immediate success; a permission error (`errno 13`) fails at once. -/
theorem run_lock_retry_semantics_witness :
    (⟨"iptables", true, false⟩ : IPTables).has_wait = false ∧ (13 : Nat) ≠ EAGAIN ∧
    run ⟨"iptables", true, false⟩ ["-L"]
        ⟨Except.ok (), List.replicate 7 (Except.error EAGAIN) ++ Except.ok () :: [],
         Except.ok ⟨⟨true⟩, "", ""⟩⟩
      = run ⟨"iptables", true, false⟩ ["-L"]
        ⟨Except.ok (), [Except.ok ()], Except.ok ⟨⟨true⟩, "", ""⟩⟩ ∧
    run ⟨"iptables", true, false⟩ ["-L"]
        ⟨Except.ok (), [Except.error 13], Except.ok ⟨⟨true⟩, "", ""⟩⟩
      = some (Except.error (IPTError.Nix 13),
              [Event.openLockFile, Event.dropLockFile]) :=
  ⟨rfl, by decide,
   run_lock_retry_semantics.1 ⟨"iptables", true, false⟩ ["-L"] 7 []
     (Except.ok ⟨⟨true⟩, "", ""⟩) rfl,
   run_lock_retry_semantics.2.2 ⟨"iptables", true, false⟩ ["-L"] 13 []
     (Except.ok ⟨⟨true⟩, "", ""⟩) rfl (by decide)⟩

/-- C5: on every returned advisory-mode path that acquired the lock —
successful completion, subprocess failure (non-zero exit is the same
trace), and subprocess launch failure — the lock file is dropped, and it
is the last event before `run` returns control. -/
theorem run_releases_lock (ipt : IPTables) (args : List String) (env : RunEnv)
    (r : Except IPTError Output) (tr : List Event)
    (hrun : run ipt args env = some (r, tr)) (hacq : Event.lockAcquired ∈ tr) :
    tr.getLast? = some Event.dropLockFile := by
  rcases run_shape ipt args env r tr hrun with ⟨_, htr⟩ | ⟨_, htr | htr | htr⟩ <;>
    subst htr <;> simp_all

/-- Witness for C5: a subprocess-launch-failure run that had acquired the
lock still ends by dropping the lock file. -/
theorem run_releases_lock_witness :
    List.getLast? [Event.openLockFile, Event.lockAcquired, Event.spawn ["-L"],
      Event.dropLockFile] = some Event.dropLockFile :=
  run_releases_lock ⟨"iptables", true, false⟩ ["-L"]
    ⟨Except.ok (), [Except.ok ()], Except.error 2⟩
    (Except.error (IPTError.Io 2))
    [Event.openLockFile, Event.lockAcquired, Event.spawn ["-L"], Event.dropLockFile]
    rfl (by decide)

/-- C8: strategy selection in `run` is pure and deterministic: a returned
call touches the lock file exactly when its handle's `has_wait` flag is
false, so two calls whose handles agree on `has_wait` select the same
strategy regardless of their argument lists or environments. -/
theorem run_mode_selection_deterministic (ipt1 ipt2 : IPTables)
    (args1 args2 : List String) (env1 env2 : RunEnv)
    (r1 r2 : Except IPTError Output) (tr1 tr2 : List Event)
    (h1 : run ipt1 args1 env1 = some (r1, tr1))
    (h2 : run ipt2 args2 env2 = some (r2, tr2))
    (hflag : ipt1.has_wait = ipt2.has_wait) :
    (Event.openLockFile ∈ tr1 ↔ ipt1.has_wait = false) ∧
    (Event.openLockFile ∈ tr1 ↔ Event.openLockFile ∈ tr2) := by
  have s1 := run_shape ipt1 args1 env1 r1 tr1 h1
  have s2 := run_shape ipt2 args2 env2 r2 tr2 h2
  constructor
  · rcases s1 with ⟨hw, htr⟩ | ⟨hw, htr | htr | htr⟩ <;> subst htr <;> simp_all
  · rcases s1 with ⟨hw, htr⟩ | ⟨hw, htr | htr | htr⟩ <;>
      rcases s2 with ⟨hw2, htr2⟩ | ⟨hw2, htr2 | htr2 | htr2⟩ <;>
      subst htr <;> subst htr2 <;> simp_all

/-- Witness for C8: a wait-mode call and an advisory-mode pair. -/
theorem run_mode_selection_deterministic_witness :
    (Event.openLockFile ∈ [Event.openLockFile, Event.lockAcquired,
        Event.spawn ["-L"], Event.dropLockFile] ↔
      (⟨"iptables", true, false⟩ : IPTables).has_wait = false) ∧
    (Event.openLockFile ∈ [Event.openLockFile, Event.lockAcquired,
        Event.spawn ["-L"], Event.dropLockFile] ↔
      Event.openLockFile ∈ [Event.openLockFile, Event.dropLockFile]) :=
  run_mode_selection_deterministic ⟨"iptables", true, false⟩ ⟨"ip6tables", false, false⟩
    ["-L"] ["-S"] ⟨Except.ok (), [Except.ok ()], Except.ok ⟨⟨true⟩, "", ""⟩⟩
    ⟨Except.ok (), [Except.error 13], Except.ok ⟨⟨true⟩, "", ""⟩⟩
    (Except.ok ⟨⟨true⟩, "", ""⟩) (Except.error (IPTError.Nix 13))
    [Event.openLockFile, Event.lockAcquired, Event.spawn ["-L"], Event.dropLockFile]
    [Event.openLockFile, Event.dropLockFile] rfl rfl rfl

end RustIptables

namespace RustIptables

/-- Characterization of the embedded `str::contains`: the scan returns
true exactly when the pattern occurs as a contiguous substring. -/
theorem strContains_iff (s pat : String) :
    strContains s pat = true ↔
      ∃ pre post, s.toList = pre ++ pat.toList ++ post := by
  unfold strContains
  rw [List.any_eq_true]
  constructor
  · rintro ⟨i, _, hpre⟩
    rw [List.isPrefixOf_iff_prefix] at hpre
    obtain ⟨post, hpost⟩ := hpre
    refine ⟨s.toList.take i, post, ?_⟩
    conv_lhs => rw [← List.take_append_drop i s.toList, ← hpost]
    rw [List.append_assoc]
  · rintro ⟨pre, post, hsplit⟩
    refine ⟨pre.length, ?_, ?_⟩
    · rw [List.mem_range]
      have := congrArg List.length hsplit
      simp only [List.length_append] at this
      omega
    · rw [List.isPrefixOf_iff_prefix, hsplit, List.append_assoc, List.drop_left]
      exact List.prefix_append _ _

/-- C6: when the subprocess launches and terminates with output `out`, a
non-zero exit status is not an error: a returned `run` call that spawned
yields `Except.ok out`, and `insert` maps a failed exit status to
`Except.ok false` rather than an error. -/
theorem run_nonzero_exit_not_error (ipt : IPTables) (args : List String)
    (env : RunEnv) (out : Output) (hsp : env.spawnResult = Except.ok out) :
    (∀ r tr, run ipt args env = some (r, tr) → (∃ a, Event.spawn a ∈ tr) →
      r = Except.ok out) ∧
    (∀ table chain rule (position : Int) r tr,
      out.status.success = false →
      insert ipt table chain rule position env = some (r, tr) →
      (∃ a, Event.spawn a ∈ tr) →
      r = Except.ok false) := by
  constructor
  · intro r tr h hs
    exact run_spawn_result ipt args env r tr h out hsp hs
  · intro table chain rule position r tr hfail hins hs
    unfold insert at hins
    cases hrun : run ipt (["-t", table, "-I", chain, toString position]
        ++ splitRule rule) env with
    | none => rw [hrun] at hins; exact absurd hins (by simp)
    | some p =>
      obtain ⟨r0, tr0⟩ := p
      rw [hrun] at hins
      cases r0 with
      | ok output =>
        simp only [Option.some.injEq, Prod.mk.injEq] at hins
        obtain ⟨hres, htr⟩ := hins
        subst htr
        have heq := run_spawn_result _ _ _ _ _ hrun out hsp hs
        have hout : output = out := by
          injection heq
        rw [← hres, hout, hfail]
      | error e =>
        simp only [Option.some.injEq, Prod.mk.injEq] at hins
        obtain ⟨hres, htr⟩ := hins
        subst htr
        have heq := run_spawn_result _ _ _ _ _ hrun out hsp hs
        simp at heq

/-- Witness for C6: a failed (`success = false`) exit makes `insert`
return `Except.ok false`. -/
theorem run_nonzero_exit_not_error_witness :
    (⟨Except.ok (), [], Except.ok ⟨⟨false⟩, "", ""⟩⟩ : RunEnv).spawnResult
      = Except.ok ⟨⟨false⟩, "", ""⟩ ∧
    insert ⟨"iptables", true, true⟩ "filter" "INPUT" "-j DROP" 1
        ⟨Except.ok (), [], Except.ok ⟨⟨false⟩, "", ""⟩⟩
      = some (Except.ok false,
          [Event.spawn ["-t", "filter", "-I", "INPUT", "1", "-j", "DROP", "--wait"]]) ∧
    (Except.ok false : Except IPTError Bool) = Except.ok false :=
  ⟨rfl, rfl,
   (run_nonzero_exit_not_error ⟨"iptables", true, true⟩
       ["-t", "filter", "-I", "INPUT", "1", "-j", "DROP"]
       ⟨Except.ok (), [], Except.ok ⟨⟨false⟩, "", ""⟩⟩
       ⟨⟨false⟩, "", ""⟩ rfl).2
     "filter" "INPUT" "-j DROP" 1 (Except.ok false)
     [Event.spawn ["-t", "filter", "-I", "INPUT", "1", "-j", "DROP", "--wait"]]
     rfl rfl
     ⟨["-t", "filter", "-I", "INPUT", "1", "-j", "DROP", "--wait"], by decide⟩⟩

end RustIptables

namespace RustIptables

/-- C9: with `has_check` false, `exists` takes the `exists_old_version`
fallback: it never issues a `-C` existence check but lists the whole
table (`-t <table> -S`, plus at most the coordinator's wait flag), and
when the listing subprocess ran and produced output it returns `true`
exactly when the captured stdout contains the substring
`-A <chain> <rule>`. -/
theorem exists_old_fallback (ipt : IPTables) (table chain rule : String)
    (env : RunEnv) (hc : ipt.has_check = false) :
    «exists» ipt table chain rule env = exists_old_version ipt table chain rule env ∧
    (∀ res tr, «exists» ipt table chain rule env = some (res, tr) →
      (∀ a, Event.spawn a ∈ tr →
        a = ["-t", table, "-S"] ∨ a = ["-t", table, "-S", "--wait"]) ∧
      (∀ out, env.spawnResult = Except.ok out → (∃ a, Event.spawn a ∈ tr) →
        res = Except.ok (strContains out.stdout ("-A " ++ chain ++ " " ++ rule)) ∧
        (strContains out.stdout ("-A " ++ chain ++ " " ++ rule) = true ↔
          ∃ pre post, out.stdout.toList
            = pre ++ ("-A " ++ chain ++ " " ++ rule).toList ++ post))) := by
  have hfall : «exists» ipt table chain rule env
      = exists_old_version ipt table chain rule env := by
    simp [«exists», hc]
  refine ⟨hfall, ?_⟩
  intro res tr hex
  rw [hfall] at hex
  unfold exists_old_version at hex
  cases hrun : run ipt ["-t", table, "-S"] env with
  | none => rw [hrun] at hex; exact absurd hex (by simp)
  | some p =>
    obtain ⟨r0, tr0⟩ := p
    rw [hrun] at hex
    have hshape := run_shape ipt ["-t", table, "-S"] env r0 tr0 hrun
    cases r0 with
    | ok output =>
      simp only [Option.some.injEq, Prod.mk.injEq] at hex
      obtain ⟨hres, htr⟩ := hex
      subst htr
      constructor
      · intro a ha
        rcases hshape with ⟨_, h⟩ | ⟨_, h | h | h⟩ <;> subst h <;> simp_all
      · intro out hsp hspawn
        have heq := run_spawn_result _ _ _ _ _ hrun out hsp hspawn
        have hout : output = out := by injection heq
        subst hout
        exact ⟨hres.symm, strContains_iff _ _⟩
    | error e =>
      simp only [Option.some.injEq, Prod.mk.injEq] at hex
      obtain ⟨hres, htr⟩ := hex
      subst htr
      constructor
      · intro a ha
        rcases hshape with ⟨_, h⟩ | ⟨_, h | h | h⟩ <;> subst h <;> simp_all
      · intro out hsp hspawn
        have heq := run_spawn_result _ _ _ _ _ hrun out hsp hspawn
        simp at heq

/-- Witness for C9: an old-version handle finds the rule in the listing. -/
theorem exists_old_fallback_witness :
    «exists» ⟨"iptables", false, true⟩ "filter" "INPUT" "-j DROP"
        ⟨Except.ok (), [], Except.ok ⟨⟨true⟩, "-A INPUT -j DROP\n", ""⟩⟩
      = exists_old_version ⟨"iptables", false, true⟩ "filter" "INPUT" "-j DROP"
        ⟨Except.ok (), [], Except.ok ⟨⟨true⟩, "-A INPUT -j DROP\n", ""⟩⟩ :=
  (exists_old_fallback ⟨"iptables", false, true⟩ "filter" "INPUT" "-j DROP"
    ⟨Except.ok (), [], Except.ok ⟨⟨true⟩, "-A INPUT -j DROP\n", ""⟩⟩ rfl).1

/-- C10: when `exists` reports the rule present (`Except.ok true`),
`insert_unique` and `append_unique` return the "the rule exists in the
table/chain" error and never launch the insert or append subprocess: the
whole trace is exactly the trace of the existence check. -/
theorem unique_ops_stop_on_existing (ipt : IPTables) (table chain rule : String)
    (position : Int) (env1 env2 : RunEnv) (tr : List Event)
    (hex : «exists» ipt table chain rule env1 = some (Except.ok true, tr)) :
    insert_unique ipt table chain rule position env1 env2
      = some (Except.error (IPTError.Other "the rule exists in the table/chain"), tr) ∧
    append_unique ipt table chain rule env1 env2
      = some (Except.error (IPTError.Other "the rule exists in the table/chain"), tr) := by
  constructor
  · unfold insert_unique
    rw [hex]
  · unfold append_unique
    rw [hex]

/-- Witness for C10: the existence check succeeds, so `insert_unique`
stops with the error and only the check's spawn event in its trace. -/
theorem unique_ops_stop_on_existing_witness :
    «exists» ⟨"iptables", true, true⟩ "filter" "INPUT" "-j DROP"
        ⟨Except.ok (), [], Except.ok ⟨⟨true⟩, "", ""⟩⟩
      = some (Except.ok true,
          [Event.spawn ["-t", "filter", "-C", "INPUT", "-j", "DROP", "--wait"]]) ∧
    insert_unique ⟨"iptables", true, true⟩ "filter" "INPUT" "-j DROP" 1
        ⟨Except.ok (), [], Except.ok ⟨⟨true⟩, "", ""⟩⟩
        ⟨Except.ok (), [], Except.ok ⟨⟨true⟩, "", ""⟩⟩
      = some (Except.error (IPTError.Other "the rule exists in the table/chain"),
          [Event.spawn ["-t", "filter", "-C", "INPUT", "-j", "DROP", "--wait"]]) :=
  ⟨rfl,
   (unique_ops_stop_on_existing ⟨"iptables", true, true⟩ "filter" "INPUT" "-j DROP" 1
     ⟨Except.ok (), [], Except.ok ⟨⟨true⟩, "", ""⟩⟩
     ⟨Except.ok (), [], Except.ok ⟨⟨true⟩, "", ""⟩⟩
     [Event.spawn ["-t", "filter", "-C", "INPUT", "-j", "DROP", "--wait"]] rfl).1⟩

end RustIptables
